import Mathlib

/-!
# Verification of the sync-storage prototype

A shallow embedding of the two source files of the repository:

* `src/complex/webext-bridge/src/main.rs` — the Protocol Bridge: a
  single-threaded loop that reads length-prefixed JSON frames from stdin,
  decodes them into `Request` variants, dispatches them against a table of
  live `Toodle` sessions, and writes `Response` frames to stdout.
* `src/complex objects/cargo/src/lib.rs` — the Boundary Adapter: the flat
  C surface and the Android JNI surface over the same `Toodle` sessions.

Rust `String` values are modelled as raw UTF-8 byte lists (`RustStr`),
`i64` as `Int`, and `HashMap<i64, Toodle>` as an association list with
overwrite-on-insert semantics.  The store crate (`Store`, item/label CRUD)
is an external collaborator of the repository; its operations are modelled
from the spec where the bridge calls into them.
-/

/-- A Rust `String`/`&str`, modelled as its raw bytes. -/
abbrev RustStr : Type := List Nat

/-- ASCII view of a Lean string literal as Rust bytes. -/
def ascii (s : String) : List Nat := s.data.map Char.toNat

/-- A label, per the spec data model (§3): `\x7b name, color \x7d`.  The label type
itself lives in the external `toodle` crate; the bridge treats it as a value
compared by whole-value equality. -/
structure Label where
  name : List Nat
  color : List Nat
deriving DecidableEq, Repr

/-- An item, per the spec data model (§3) and the field list of the
`impl Serialize for Item` block in `main.rs`. -/
structure Item where
  uuid : List Nat
  name : List Nat
  due_date : Option Int
  completion_date : Option Int
  labels : List Label
deriving DecidableEq, Repr

/-- The store handle.  The store crate is an external collaborator (spec §1);
only the state the bridge's calls touch is modelled: the items and the
store-level labels, plus the uri it was opened at. -/
structure Store where
  uri : List Nat
  items : List Item
  labels : List Label
deriving DecidableEq, Repr

/-- Modelled from the spec: `Store::new(uri)` opens a store handle at `uri`
(store CRUD is out of scope; a fresh handle carries no cached state). -/
def Store.new (uri : List Nat) : Store := ⟨uri, [], []⟩

/-- Modelled from the spec: store item fetch by uuid (`fetch_item`), the
store-level "referenced item uuid not found" being a `none` result. -/
def Store.fetch_item (s : Store) (uuid : List Nat) : Option Item :=
  s.items.find? (fun i => i.uuid = uuid)

/-- Modelled from the spec: store item update (`update_item`) persists the
given item in place of the stored item with the same uuid (items are unique
by uuid, §3). -/
def Store.update_item (s : Store) (item : Item) : Store :=
  { s with items := s.items.map (fun j => if j.uuid = item.uuid then item else j) }

/-- Modelled from the spec: store label creation (`create_label`); a
store-level failure (e.g. duplicate) is a `none` result (§7: `BadLabel`). -/
def Store.create_label (s : Store) (name color : List Nat) :
    Option (Label × Store) :=
  let l : Label := ⟨name, color⟩
  if l ∈ s.labels then none
  else some (l, { s with labels := s.labels ++ [l] })

/-- The login sub-manager (`logins` crate, external); it holds a
shared-ownership reference to the same store (here: the store value). -/
structure LoginManager where
  store : Store
deriving DecidableEq, Repr

/-- Modelled from the spec: `LoginManager::new(store)`. -/
def LoginManager.new (s : Store) : LoginManager := ⟨s⟩

/-- The list sub-manager (`list` crate, external). -/
structure ListManager where
  store : Store
deriving DecidableEq, Repr

/-- Modelled from the spec: `ListManager::new(store)`. -/
def ListManager.new (s : Store) : ListManager := ⟨s⟩

/-- `Toodle` from `lib.rs`: a store plus login and list sub-managers that
share the store.  The `Arc` fan-out is modelled by value: the bridge only
ever reads and writes through `toodle.store`, never through the
sub-managers, so the aliasing plays no role in the dispatched operations. -/
structure Toodle where
  store : Store
  logins : LoginManager
  list : ListManager
deriving DecidableEq, Repr

/-- `Toodle::new(uri)` from `lib.rs` lines 35–42: open the store, build the
two sub-managers over clones of the same store reference. -/
def Toodle.new (uri : List Nat) : Toodle :=
  let store := Store.new uri
  ⟨store, LoginManager.new store, ListManager.new store⟩

/-- The bridge's error taxonomy.  NOTE: the `enum Error` declaration in
`main.rs` (lines 13–17) lists only `BadRequest`, `BadToodle`, `BadLabel`,
yet the `AddLabel` dispatch arm (line 132) constructs `Response::Err(BadItem)`
— an undeclared variant, so the source as written does not compile.  The
embedding completes the enum with `BadItem`, as both the dispatch code and
the spec's error taxonomy (§7) require. -/
inductive Error where
  | BadRequest
  | BadToodle
  | BadLabel
  | BadItem
deriving DecidableEq, Repr

/-- `enum Request` from `main.rs` lines 19–47: the closed variant set of
the wire protocol, tagged by a `type` discriminator. -/
inductive Request where
  | NewToodle (uri : List Nat)
  | DestroyToodle (toodle_id : Int)
  | GetLabels
  | GetTodos (labels : Option (List (List Nat)))
  | CreateTodo (name : List Nat) (due : Int) (labels : List (List Nat))
  | DeleteTodo (id : Int)
  | MarkCompleted (id : Int)
  | CreateLabel (toodle_id : Int) (name : List Nat) (color : List Nat)
  | AddLabel (toodle_id : Int) (item_uuid : List Nat) (label : Label)
  | SetDue (id : Int) (due : Int)
deriving DecidableEq, Repr

/-- `enum Response` from `main.rs` lines 57–67. -/
inductive Response where
  | NewToodle (toodle_id : Int)
  | DestroyToodle (destroyed : Bool)
  | CreateLabel (label : Label)
  | CreateItem (item : Item)
  | AddLabel
  | Err (e : Error)
deriving DecidableEq, Repr

/-- The session table: `HashMap<i64, Toodle>` as an association list.
Lookup returns the first binding for a key. -/
def lookupToodle (l : List (Int × Toodle)) (k : Int) : Option Toodle :=
  (l.find? (fun p => p.1 = k)).map (fun p => p.2)

/-- `HashMap::remove`: drop the binding for a key (and return nothing here;
the dispatch code only asks whether one was present). -/
def eraseToodle (l : List (Int × Toodle)) (k : Int) : List (Int × Toodle) :=
  l.filter (fun p => ¬ p.1 = k)

/-- `HashMap::insert` with overwrite semantics. -/
def insertToodle (l : List (Int × Toodle)) (k : Int) (v : Toodle) :
    List (Int × Toodle) :=
  (k, v) :: eraseToodle l k

/-- The mutable state of `main`: the `toodles` table and the
`next_toodle_id` counter (`main.rs` lines 78–79).  The counter is an `i64`
in the source; it is carried here as an `Int` and every increment goes
through `wrap64`, so all values reachable from the initial state stay in
the `i64` range and wrap exactly where the source's release-mode `+= 1`
wraps. -/
structure BridgeState where
  toodles : List (Int × Toodle)
  nextId : Int
deriving DecidableEq, Repr

/-- `main`'s initial state: empty table, counter at 1. -/
def initialState : BridgeState := ⟨[], 1⟩

/-- Wrap an integer into the `i64` range: the source's
`next_toodle_id += 1` is an `i64` increment, which wraps modulo 2^64 into
[-2^63, 2^63) in release builds (and panics in debug at the same
boundary), so the embedding increments through this wrap. -/
def wrap64 (n : Int) : Int :=
  (n + 9223372036854775808) % 18446744073709551616 - 9223372036854775808

/-- The dispatch `match request` of `main` (`main.rs` lines 90–138).  The
source match has arms only for `NewToodle`, `DestroyToodle`, `CreateLabel`
and `AddLabel`; the six remaining `Request` variants (`GetLabels`,
`GetTodos`, `CreateTodo`, `DeleteTodo`, `MarkCompleted`, `SetDue`) have no
arm at all — a non-exhaustive match, which rustc rejects.  The absence of a
semantics for those variants is modelled as `none`. -/
def dispatch (st : BridgeState) : Request → Option (Response × BridgeState)
  | .NewToodle uri =>
      let toodle := Toodle.new uri
      some (.NewToodle st.nextId,
            { toodles := insertToodle st.toodles st.nextId toodle,
              nextId := wrap64 (st.nextId + 1) })
  | .DestroyToodle toodle_id =>
      let maybe_toodle := lookupToodle st.toodles toodle_id
      some (.DestroyToodle maybe_toodle.isSome,
            { st with toodles := eraseToodle st.toodles toodle_id })
  | .CreateLabel toodle_id name color =>
      match lookupToodle st.toodles toodle_id with
      | some toodle =>
          match toodle.store.create_label name color with
          | some (label, store) =>
              let toodle' : Toodle := { toodle with store := store }
              some (.CreateLabel label,
                    { st with toodles := insertToodle st.toodles toodle_id toodle' })
          | none => some (.Err .BadLabel, st)
      | none => some (.Err .BadToodle, st)
  | .AddLabel toodle_id item_uuid label =>
      match lookupToodle st.toodles toodle_id with
      | some toodle =>
          match toodle.store.fetch_item item_uuid with
          | some item =>
              if label ∈ item.labels then some (.AddLabel, st)
              else
                let item' : Item := { item with labels := item.labels ++ [label] }
                let toodle' : Toodle := { toodle with store := toodle.store.update_item item' }
                some (.AddLabel,
                      { st with toodles := insertToodle st.toodles toodle_id toodle' })
          | none => some (.Err .BadItem, st)
      | none => some (.Err .BadToodle, st)
  | _ => none

/-- Whether a `Request` variant has a dispatch arm in the source match. -/
def handledRequest : Request → Bool
  | .NewToodle _ => true
  | .DestroyToodle _ => true
  | .CreateLabel _ _ _ => true
  | .AddLabel _ _ _ => true
  | _ => false

/-- What one iteration's read can observe on the input stream: a well-formed
frame holding a request, a frame whose body fails to decode, or the
read-side fatal condition (EOF before a length prefix, stream closed). -/
inductive ReadEvent where
  | frame (r : Request)
  | badFrame
  | eof
deriving DecidableEq, Repr

/-- `Request::read_from` (`main.rs` lines 49–55): every failure of the
frame read or of the JSON decode — EOF included — is mapped to
`Err(BadRequest)`; the function does not distinguish a closed stream from a
malformed body. -/
def Request.read_from : ReadEvent → Except Error Request
  | .frame r => .ok r
  | .badFrame => .error .BadRequest
  | .eof => .error .BadRequest

/-- The `loop` of `main` (`main.rs` lines 87–147) over a finite prefix of
the input stream.  Each list entry is one iteration's read outcome paired
with whether that iteration's response write succeeds; a failed write is
only logged (`unwrap_or_else` + `eprintln`, lines 143–146) and the loop
continues, so the write flag does not influence control flow.  The source
`loop` has no `break` or `return`: every iteration produces a response and
continues, read errors included.  An unhandled request variant (no match
arm, see `dispatch`) has no semantics; the run is then `none`. -/
def runLoop (st : BridgeState) :
    List (ReadEvent × Bool) → Option (List Response × BridgeState)
  | [] => some ([], st)
  | (ev, _writeOk) :: rest =>
      match Request.read_from ev with
      | .error err =>
          (runLoop st rest).map (fun p => (Response.Err err :: p.1, p.2))
      | .ok request =>
          match dispatch st request with
          | none => none
          | some (response, st') =>
              (runLoop st' rest).map (fun p => (response :: p.1, p.2))

/-! ## Lemmas about the session table -/

theorem lookupToodle_insert_self (l : List (Int × Toodle)) (k : Int) (v : Toodle) :
    lookupToodle (insertToodle l k v) k = some v := by
  simp [lookupToodle, insertToodle, List.find?]

theorem lookupToodle_erase_self (l : List (Int × Toodle)) (k : Int) :
    lookupToodle (eraseToodle l k) k = none := by
  simp only [lookupToodle, eraseToodle, Option.map_eq_none', List.find?_eq_none]
  intro p hp
  have := (List.mem_filter.mp hp).2
  simpa using this

theorem eraseToodle_idem (l : List (Int × Toodle)) (k : Int) :
    eraseToodle (eraseToodle l k) k = eraseToodle l k := by
  simp [eraseToodle, List.filter_filter]

theorem find?_update_list (u : List Nat) (item item' : Item)
    (huuid : item'.uuid = item.uuid) (hu : item.uuid = u) :
    ∀ items : List Item, items.find? (fun i => i.uuid = u) = some item →
      (items.map (fun j => if j.uuid = item'.uuid then item' else j)).find?
        (fun i => i.uuid = u) = some item' := by
  intro items
  induction items with
  | nil => intro h; simp at h
  | cons j js ih =>
      intro h
      by_cases hj : j.uuid = u
      · rw [List.find?_cons_of_pos _ (by simpa using hj)] at h
        obtain rfl : j = item := by simpa using h
        simp only [List.map_cons, if_pos huuid.symm]
        exact List.find?_cons_of_pos _ (by simp [huuid, hu])
      · rw [List.find?_cons_of_neg _ (by simpa using hj)] at h
        simp only [List.map_cons]
        rw [if_neg (fun hcontra => hj (by rw [hcontra, huuid, hu]))]
        rw [List.find?_cons_of_neg _ (by simpa using hj)]
        exact ih h

theorem fetch_update_item (s : Store) (u : List Nat) (item item' : Item)
    (hfind : s.fetch_item u = some item) (huuid : item'.uuid = item.uuid) :
    (s.update_item item').fetch_item u = some item' := by
  have hu : item.uuid = u := by
    have := List.find?_some hfind
    simpa using this
  exact find?_update_list u item item' huuid hu s.items hfind

/-! ## Claim theorems: dispatch-level -/

/-- C1: the six pass-through `Request` variants (`GetLabels`, `GetTodos`,
`CreateTodo`, `DeleteTodo`, `MarkCompleted`, `SetDue`) have **no** dispatch
arm in the source `match` (`main.rs` lines 90–138): dispatching any of them
yields no `Response` at all, while the four remaining variants are
dispatched.  This evaluates the code at the claim's failing inputs: the
claim that no decodable request is left without a dispatch case is exactly
what fails. -/
theorem dispatch_passthrough_unhandled (st : BridgeState) (labels : Option (List (List Nat)))
    (name : List Nat) (due : Int) (ls : List (List Nat)) (i1 i2 i3 d3 : Int) :
    dispatch st .GetLabels = none ∧
    dispatch st (.GetTodos labels) = none ∧
    dispatch st (.CreateTodo name due ls) = none ∧
    dispatch st (.DeleteTodo i1) = none ∧
    dispatch st (.MarkCompleted i2) = none ∧
    dispatch st (.SetDue i3 d3) = none ∧
    (∀ uri, (dispatch st (.NewToodle uri)).isSome = true) ∧
    (∀ tid, (dispatch st (.DestroyToodle tid)).isSome = true) := by
  refine ⟨rfl, rfl, rfl, rfl, rfl, rfl, fun uri => rfl, fun tid => rfl⟩

/-- C4 counterexample: a request carrying an absent `toodle_id` does *not*
always get `Err(BadToodle)`: `DestroyToodle` on the unknown id 1 answers
`DestroyToodle\x7bdestroyed: false\x7d` (`main.rs` lines 98–101), which is not
`Err(BadToodle)`. -/
theorem destroy_unknown_id_not_badToodle :
    dispatch initialState (.DestroyToodle 1) =
      some (.DestroyToodle false, initialState) ∧
    (Response.DestroyToodle false ≠ Response.Err .BadToodle) := by
  exact ⟨rfl, by decide⟩

/-- C4 amended: for the non-destroy operations that carry a `toodle_id`
(`CreateLabel`, `AddLabel`), a `toodle_id` absent from the session table —
never created or previously destroyed — yields `Err(BadToodle)` with the
state unchanged (never a crash or hang: dispatch is total on these
variants); and after a `DestroyToodle` the destroyed id is absent from the
table, so it behaves identically to an id that never existed.
`DestroyToodle` itself instead reports `destroyed: false` on an absent id. -/
theorem unknown_toodle_id_yields_badToodle (st : BridgeState) (tid : Int) :
    (lookupToodle st.toodles tid = none →
      (∀ name color, dispatch st (.CreateLabel tid name color) =
        some (.Err .BadToodle, st)) ∧
      (∀ uuid lbl, dispatch st (.AddLabel tid uuid lbl) =
        some (.Err .BadToodle, st))) ∧
    (∀ resp st', dispatch st (.DestroyToodle tid) = some (resp, st') →
      lookupToodle st'.toodles tid = none) := by
  constructor
  · intro h
    exact ⟨fun name color => by simp [dispatch, h],
           fun uuid lbl => by simp [dispatch, h]⟩
  · intro resp st' h
    have h' := Option.some.inj h
    have hst' : st' = { st with toodles := eraseToodle st.toodles tid } :=
      (congrArg Prod.snd h').symm
    rw [hst']
    exact lookupToodle_erase_self st.toodles tid

theorem unknown_toodle_id_yields_badToodle_witness :
    lookupToodle [(1, Toodle.new (ascii "db"))] 2 = none ∧
    dispatch ⟨[(1, Toodle.new (ascii "db"))], 2⟩
        (.CreateLabel 2 (ascii "n") (ascii "c")) =
      some (.Err .BadToodle, ⟨[(1, Toodle.new (ascii "db"))], 2⟩) :=
  ⟨by decide,
   ((unknown_toodle_id_yields_badToodle ⟨[(1, Toodle.new (ascii "db"))], 2⟩ 2).1
      (by decide)).1 (ascii "n") (ascii "c")⟩

/-- C5: `AddLabel` against an `item_uuid` the store has no item for answers
`Err(BadItem)` and leaves the bridge state (session table included)
unchanged (`main.rs` line 132).  (The **declared** `enum Error` of the
source omits `BadItem` even though this arm constructs it — see the note on
`Error`; this theorem evaluates the dispatch at the claim's input in the
completed model.) -/
theorem addLabel_missing_item_badItem (st : BridgeState) (tid : Int)
    (uuid : List Nat) (lbl : Label) (toodle : Toodle)
    (hl : lookupToodle st.toodles tid = some toodle)
    (hf : toodle.store.fetch_item uuid = none) :
    dispatch st (.AddLabel tid uuid lbl) = some (.Err .BadItem, st) := by
  simp [dispatch, hl, hf]

theorem addLabel_missing_item_badItem_witness :
    dispatch ⟨[(1, Toodle.new [])], 2⟩ (.AddLabel 1 [117] ⟨[110], [99]⟩) =
      some (.Err .BadItem, ⟨[(1, Toodle.new [])], 2⟩) :=
  addLabel_missing_item_badItem ⟨[(1, Toodle.new [])], 2⟩ 1 [117] ⟨[110], [99]⟩
    (Toodle.new []) (by decide) (by decide)

/-- C7: `DestroyToodle\x7btoodle_id: X\x7d` answers `destroyed` exactly according
to the presence of `X` in the session table and removes the entry
(`main.rs` lines 98–101); hence when `X` is present, two consecutive
destroys answer `destroyed: true` then `destroyed: false`. -/
theorem destroyToodle_semantics (st : BridgeState) (X : Int) :
    dispatch st (.DestroyToodle X) =
      some (.DestroyToodle (lookupToodle st.toodles X).isSome,
            { st with toodles := eraseToodle st.toodles X }) ∧
    ((lookupToodle st.toodles X).isSome = true →
      ∃ st1, dispatch st (.DestroyToodle X) = some (.DestroyToodle true, st1) ∧
        dispatch st1 (.DestroyToodle X) = some (.DestroyToodle false, st1)) := by
  refine ⟨rfl, fun h => ?_⟩
  refine ⟨{ st with toodles := eraseToodle st.toodles X }, ?_, ?_⟩
  · simp [dispatch, h]
  · have h1 := lookupToodle_erase_self st.toodles X
    simp [dispatch, h1, eraseToodle_idem]

theorem destroyToodle_semantics_witness :
    (lookupToodle [(1, Toodle.new [])] 1).isSome = true ∧
    (∃ st1, dispatch ⟨[(1, Toodle.new [])], 2⟩ (.DestroyToodle 1) =
        some (.DestroyToodle true, st1) ∧
      dispatch st1 (.DestroyToodle 1) = some (.DestroyToodle false, st1)) :=
  ⟨by decide, (destroyToodle_semantics ⟨[(1, Toodle.new [])], 2⟩ 1).2 (by decide)⟩

/-! ## Lemmas about dispatch and the loop -/

/-- An input event the source loop can actually process: every frame it
carries holds a request with a dispatch arm. -/
def eventHandled : ReadEvent → Bool
  | .frame r => handledRequest r
  | .badFrame => true
  | .eof => true

theorem dispatch_isSome (st : BridgeState) (r : Request) :
    (dispatch st r).isSome = handledRequest r := by
  cases r with
  | CreateLabel tid name color =>
      rcases hl : lookupToodle st.toodles tid with _ | t
      · simp [dispatch, handledRequest, hl]
      · rcases hc : t.store.create_label name color with _ | ⟨a, b⟩ <;>
          simp [dispatch, handledRequest, hl, hc]
  | AddLabel tid uuid lbl =>
      rcases hl : lookupToodle st.toodles tid with _ | t
      · simp [dispatch, handledRequest, hl]
      · rcases hf : t.store.fetch_item uuid with _ | item
        · simp [dispatch, handledRequest, hl, hf]
        · by_cases hm : lbl ∈ item.labels <;>
            simp [dispatch, handledRequest, hl, hf, hm]
  | NewToodle uri => rfl
  | DestroyToodle tid => rfl
  | GetLabels => rfl
  | GetTodos l => rfl
  | CreateTodo a b c => rfl
  | DeleteTodo i => rfl
  | MarkCompleted i => rfl
  | SetDue i d => rfl

/-- Whether a request is a `NewToodle` (the only dispatch arm that touches
the `next_toodle_id` counter). -/
def isNewToodleReq : Request → Bool
  | .NewToodle _ => true
  | _ => false

theorem wrap64_eq (n : Int) (hlo : -9223372036854775808 ≤ n)
    (hhi : n < 9223372036854775808) : wrap64 n = n := by
  unfold wrap64
  omega

theorem dispatch_nextId (st : BridgeState) (r : Request) (resp : Response)
    (st' : BridgeState) (h : dispatch st r = some (resp, st')) :
    (isNewToodleReq r = true →
      st'.nextId = wrap64 (st.nextId + 1) ∧ resp = .NewToodle st.nextId) ∧
    (isNewToodleReq r = false → st'.nextId = st.nextId) := by
  cases r with
  | NewToodle uri =>
      simp only [dispatch, Option.some.injEq, Prod.mk.injEq] at h
      obtain ⟨rfl, rfl⟩ := h
      exact ⟨fun _ => ⟨rfl, rfl⟩, fun hc => by simp [isNewToodleReq] at hc⟩
  | DestroyToodle tid =>
      simp only [dispatch, Option.some.injEq, Prod.mk.injEq] at h
      obtain ⟨rfl, rfl⟩ := h
      exact ⟨fun hc => by simp [isNewToodleReq] at hc, fun _ => rfl⟩
  | CreateLabel tid name color =>
      refine ⟨fun hc => by simp [isNewToodleReq] at hc, fun _ => ?_⟩
      simp only [dispatch] at h
      split at h
      · split at h
        · simp only [Option.some.injEq, Prod.mk.injEq] at h
          obtain ⟨rfl, rfl⟩ := h
          rfl
        · simp only [Option.some.injEq, Prod.mk.injEq] at h
          obtain ⟨rfl, rfl⟩ := h
          rfl
      · simp only [Option.some.injEq, Prod.mk.injEq] at h
        obtain ⟨rfl, rfl⟩ := h
        rfl
  | AddLabel tid uuid lbl =>
      refine ⟨fun hc => by simp [isNewToodleReq] at hc, fun _ => ?_⟩
      simp only [dispatch] at h
      split at h
      · split at h
        · split at h <;>
            · simp only [Option.some.injEq, Prod.mk.injEq] at h
              obtain ⟨rfl, rfl⟩ := h
              rfl
        · simp only [Option.some.injEq, Prod.mk.injEq] at h
          obtain ⟨rfl, rfl⟩ := h
          rfl
      · simp only [Option.some.injEq, Prod.mk.injEq] at h
        obtain ⟨rfl, rfl⟩ := h
        rfl
  | GetLabels => exact absurd h (by simp [dispatch])
  | GetTodos l => exact absurd h (by simp [dispatch])
  | CreateTodo a b c => exact absurd h (by simp [dispatch])
  | DeleteTodo i => exact absurd h (by simp [dispatch])
  | MarkCompleted i => exact absurd h (by simp [dispatch])
  | SetDue i d => exact absurd h (by simp [dispatch])

theorem runLoop_total : ∀ (evs : List (ReadEvent × Bool)) (st : BridgeState),
    (∀ p ∈ evs, eventHandled p.1 = true) →
    ∃ rs stf, runLoop st evs = some (rs, stf) ∧ rs.length = evs.length := by
  intro evs
  induction evs with
  | nil => exact fun st _ => ⟨[], st, rfl, rfl⟩
  | cons p rest ih =>
      intro st h
      obtain ⟨ev, w⟩ := p
      have hrest : ∀ q ∈ rest, eventHandled q.1 = true :=
        fun q hq => h q (List.mem_cons_of_mem _ hq)
      cases ev with
      | badFrame =>
          obtain ⟨rs, stf, hrun, hlen⟩ := ih st hrest
          exact ⟨Response.Err .BadRequest :: rs, stf,
                 by simp [runLoop, Request.read_from, hrun], by simp [hlen]⟩
      | eof =>
          obtain ⟨rs, stf, hrun, hlen⟩ := ih st hrest
          exact ⟨Response.Err .BadRequest :: rs, stf,
                 by simp [runLoop, Request.read_from, hrun], by simp [hlen]⟩
      | frame r =>
          have hr : handledRequest r = true :=
            h (ReadEvent.frame r, w) (List.mem_cons_self _ _)
          have hsome : (dispatch st r).isSome = true := by
            rw [dispatch_isSome]; exact hr
          obtain ⟨⟨resp, st'⟩, hd⟩ := Option.isSome_iff_exists.mp hsome
          obtain ⟨rs, stf, hrun, hlen⟩ := ih st' hrest
          exact ⟨resp :: rs, stf,
                 by simp [runLoop, Request.read_from, hd, hrun], by simp [hlen]⟩

/-- Whether an input event is a well-formed `NewToodle` frame. -/
def isNewToodleEvent : ReadEvent → Bool
  | .frame (.NewToodle _) => true
  | _ => false

/-- Number of `NewToodle` frames in a stretch of input events. -/
def countNewToodles (evs : List (ReadEvent × Bool)) : Nat :=
  (evs.filter (fun p => isNewToodleEvent p.1)).length

theorem isNewToodleEvent_frame (r : Request) :
    isNewToodleEvent (.frame r) = isNewToodleReq r := by
  cases r <;> rfl

theorem countNewToodles_cons (e : ReadEvent) (w : Bool)
    (evs : List (ReadEvent × Bool)) :
    countNewToodles ((e, w) :: evs) =
      (if isNewToodleEvent e then 1 else 0) + countNewToodles evs := by
  by_cases h : isNewToodleEvent e = true <;>
    simp [countNewToodles, List.filter_cons, h, Nat.add_comm]

/-- A `NewToodle` frame at position `i` is itself counted by
`countNewToodles`, so the frames strictly before it number at least one
fewer than the whole input's. -/
theorem countNewToodles_take_succ (evs : List (ReadEvent × Bool)) :
    ∀ (i : Nat) (uri : List Nat) (w : Bool),
      evs.get? i = some (.frame (.NewToodle uri), w) →
      countNewToodles (evs.take i) + 1 ≤ countNewToodles evs := by
  induction evs with
  | nil => intro i uri w hi; simp at hi
  | cons p rest ih =>
      intro i uri w hi
      obtain ⟨ev, wv⟩ := p
      cases i with
      | zero =>
          rw [List.get?_cons_zero] at hi
          injection hi with hi
          injection hi with h1 h2
          subst h1
          have hE : isNewToodleEvent (ReadEvent.frame (.NewToodle uri)) = true := rfl
          rw [List.take_zero, countNewToodles_cons, hE, if_pos rfl]
          have h0 : countNewToodles ([] : List (ReadEvent × Bool)) = 0 := rfl
          rw [h0]
          omega
      | succ i =>
          rw [List.get?_cons_succ] at hi
          have hle := ih i uri w hi
          rw [List.take_succ_cons, countNewToodles_cons, countNewToodles_cons]
          omega

theorem runLoop_newToodle_id :
    ∀ (evs : List (ReadEvent × Bool)) (st : BridgeState),
    (∀ p ∈ evs, eventHandled p.1 = true) →
    ∀ (i : Nat) (uri : List Nat) (w : Bool),
      evs.get? i = some (.frame (.NewToodle uri), w) →
      -9223372036854775808 ≤ st.nextId →
      st.nextId + (countNewToodles (evs.take i) : Int) < 9223372036854775808 →
      ∃ rs stf, runLoop st evs = some (rs, stf) ∧
        rs.get? i =
          some (.NewToodle (st.nextId + (countNewToodles (evs.take i) : Int))) := by
  intro evs
  induction evs with
  | nil => intro st h i uri w hi hlo hhi; simp at hi
  | cons p rest ih =>
      intro st h i uri w hi hlo hhi
      obtain ⟨ev, wv⟩ := p
      have hrest : ∀ q ∈ rest, eventHandled q.1 = true :=
        fun q hq => h q (List.mem_cons_of_mem _ hq)
      cases i with
      | zero =>
          rw [List.get?_cons_zero] at hi
          injection hi with hi
          injection hi with h1 h2
          subst h1
          subst h2
          obtain ⟨rs, stf, hrun, _⟩ :=
            runLoop_total rest ⟨insertToodle st.toodles st.nextId (Toodle.new uri),
                                wrap64 (st.nextId + 1)⟩ hrest
          refine ⟨Response.NewToodle st.nextId :: rs, stf, ?_, ?_⟩
          · simp [runLoop, Request.read_from, dispatch, hrun]
          · rw [List.get?_cons_zero]
            simp [countNewToodles]
      | succ i =>
          rw [List.get?_cons_succ] at hi
          cases ev with
          | badFrame =>
              have hceq : (countNewToodles
                    (List.take (i + 1) ((ReadEvent.badFrame, wv) :: rest)) : Int) =
                  (countNewToodles (List.take i rest) : Int) := by
                rw [List.take_succ_cons, countNewToodles_cons]
                norm_num [isNewToodleEvent]
              rw [hceq] at hhi ⊢
              obtain ⟨rs, stf, hrun, hget⟩ := ih st hrest i uri w hi hlo hhi
              exact ⟨Response.Err .BadRequest :: rs, stf,
                     by simp [runLoop, Request.read_from, hrun],
                     by rw [List.get?_cons_succ, hget]⟩
          | eof =>
              have hceq : (countNewToodles
                    (List.take (i + 1) ((ReadEvent.eof, wv) :: rest)) : Int) =
                  (countNewToodles (List.take i rest) : Int) := by
                rw [List.take_succ_cons, countNewToodles_cons]
                norm_num [isNewToodleEvent]
              rw [hceq] at hhi ⊢
              obtain ⟨rs, stf, hrun, hget⟩ := ih st hrest i uri w hi hlo hhi
              exact ⟨Response.Err .BadRequest :: rs, stf,
                     by simp [runLoop, Request.read_from, hrun],
                     by rw [List.get?_cons_succ, hget]⟩
          | frame r =>
              have hr : handledRequest r = true :=
                h (ReadEvent.frame r, wv) (List.mem_cons_self _ _)
              have hsome : (dispatch st r).isSome = true := by
                rw [dispatch_isSome]; exact hr
              obtain ⟨⟨resp, st'⟩, hd⟩ := Option.isSome_iff_exists.mp hsome
              have hn := dispatch_nextId st r resp st' hd
              have hceq : (countNewToodles
                    (List.take (i + 1) ((ReadEvent.frame r, wv) :: rest)) : Int) =
                  (if isNewToodleReq r = true then 1 else 0) +
                    (countNewToodles (List.take i rest) : Int) := by
                rw [List.take_succ_cons, countNewToodles_cons, isNewToodleEvent_frame]
                push_cast
                ring
              have hcnn : (0 : Int) ≤ (countNewToodles (List.take i rest) : Int) :=
                Int.natCast_nonneg _
              rw [hceq] at hhi ⊢
              by_cases hNT : isNewToodleReq r = true
              · obtain ⟨h1, -⟩ := hn.1 hNT
                rw [if_pos hNT] at hhi ⊢
                have hstep : st'.nextId = st.nextId + 1 := by
                  rw [h1, wrap64_eq (st.nextId + 1) (by omega) (by omega)]
                have hlo' : -9223372036854775808 ≤ st'.nextId := by omega
                have hhi' : st'.nextId +
                    (countNewToodles (List.take i rest) : Int) <
                      9223372036854775808 := by omega
                obtain ⟨rs, stf, hrun, hget⟩ := ih st' hrest i uri w hi hlo' hhi'
                refine ⟨resp :: rs, stf,
                        by simp [runLoop, Request.read_from, hd, hrun], ?_⟩
                rw [List.get?_cons_succ, hget, hstep]
                congr 2
                ring
              · have h1 := hn.2 (by simpa using hNT)
                rw [if_neg hNT] at hhi ⊢
                have hlo' : -9223372036854775808 ≤ st'.nextId := by omega
                have hhi' : st'.nextId +
                    (countNewToodles (List.take i rest) : Int) <
                      9223372036854775808 := by omega
                obtain ⟨rs, stf, hrun, hget⟩ := ih st' hrest i uri w hi hlo' hhi'
                refine ⟨resp :: rs, stf,
                        by simp [runLoop, Request.read_from, hd, hrun], ?_⟩
                rw [List.get?_cons_succ, hget, h1]
                congr 2
                ring

/-- C2: session ids are strictly increasing from 1 and never reused within
a process lifetime, destroys notwithstanding: starting from `main`'s
initial state, the response to the frame at position `i`, when that frame
is the (n+1)-st `NewToodle` (n = number of earlier `NewToodle` frames), is
`NewToodle\x7btoodle_id: 1 + n\x7d` — independent of any `DestroyToodle` or other
events interleaved before it.  The input is assumed to hold fewer than
2^63 `NewToodle` frames: `next_toodle_id` is an `i64` whose increment
wraps there (release) or panics (debug), so beyond that bound the program
does reuse ids; every execution a process can actually perform satisfies
the bound. -/
theorem session_ids_never_reused (evs : List (ReadEvent × Bool))
    (h : ∀ p ∈ evs, eventHandled p.1 = true)
    (i : Nat) (uri : List Nat) (w : Bool)
    (hi : evs.get? i = some (.frame (.NewToodle uri), w))
    (hcount : countNewToodles evs < 9223372036854775808) :
    ∃ rs stf, runLoop initialState evs = some (rs, stf) ∧
      rs.get? i =
        some (.NewToodle (1 + (countNewToodles (evs.take i) : Int))) :=
  runLoop_newToodle_id evs initialState h i uri w hi
    (by decide)
    (by rw [show initialState.nextId = (1 : Int) from rfl]
        have hle := countNewToodles_take_succ evs i uri w hi
        have hle' : (countNewToodles (evs.take i) : Int) + 1 ≤
            (countNewToodles evs : Int) := by exact_mod_cast hle
        have hc : (countNewToodles evs : Int) < 9223372036854775808 := by
          exact_mod_cast hcount
        omega)

theorem session_ids_never_reused_witness :
    (∀ p ∈ [(ReadEvent.frame (.NewToodle (ascii "a")), true),
            (ReadEvent.frame (.NewToodle (ascii "b")), true),
            (ReadEvent.frame (.NewToodle (ascii "c")), true),
            (ReadEvent.frame (.DestroyToodle 2), true),
            (ReadEvent.frame (.NewToodle (ascii "d")), true)],
        eventHandled p.1 = true) ∧
    countNewToodles
        [(ReadEvent.frame (.NewToodle (ascii "a")), true),
         (ReadEvent.frame (.NewToodle (ascii "b")), true),
         (ReadEvent.frame (.NewToodle (ascii "c")), true),
         (ReadEvent.frame (.DestroyToodle 2), true),
         (ReadEvent.frame (.NewToodle (ascii "d")), true)] < 9223372036854775808 ∧
    (∃ rs stf,
      runLoop initialState
          [(ReadEvent.frame (.NewToodle (ascii "a")), true),
           (ReadEvent.frame (.NewToodle (ascii "b")), true),
           (ReadEvent.frame (.NewToodle (ascii "c")), true),
           (ReadEvent.frame (.DestroyToodle 2), true),
           (ReadEvent.frame (.NewToodle (ascii "d")), true)] = some (rs, stf) ∧
      rs.get? 4 =
        some (.NewToodle (1 + (countNewToodles
          (([(ReadEvent.frame (.NewToodle (ascii "a")), true),
             (ReadEvent.frame (.NewToodle (ascii "b")), true),
             (ReadEvent.frame (.NewToodle (ascii "c")), true),
             (ReadEvent.frame (.DestroyToodle 2), true),
             (ReadEvent.frame (.NewToodle (ascii "d")), true)].take 4)) : Int)))) :=
  ⟨by decide, by decide,
   session_ids_never_reused _ (by decide) 4 (ascii "d") true (by decide) (by decide)⟩

/-- Modelled from the spec: the loop of §4.3 step 5 / §7 — identical to the
source loop on successful reads and decode failures, but on a *read-side
fatal error* (stream closed, EOF before a length prefix) it terminates
cleanly, producing no further responses. -/
def runLoopSpec (st : BridgeState) :
    List (ReadEvent × Bool) → List Response × BridgeState
  | [] => ([], st)
  | (ev, _writeOk) :: rest =>
      match ev with
      | .eof => ([], st)
      | .badFrame =>
          let p := runLoopSpec st rest
          (Response.Err .BadRequest :: p.1, p.2)
      | .frame r =>
          match dispatch st r with
          | none => ([], st)
          | some (resp, st') =>
              let p := runLoopSpec st' rest
              (resp :: p.1, p.2)

/-- C6 counterexample: the source loop does **not** terminate on a
read-side fatal error.  `loop` (`main.rs` lines 87–147) has no `break` or
`return`; `Request::read_from` maps an EOF like any other read failure to
`Err(BadRequest)` (lines 49–54, 140), so at EOF the loop emits an
`Err(BadRequest)` frame and keeps iterating — here it processes a *second*
read after the stream already hit EOF, where the spec's loop (which
terminates cleanly at EOF) produces no response at all. -/
theorem loop_does_not_terminate_on_eof :
    runLoop initialState [(.eof, true), (.eof, true)] =
      some ([.Err .BadRequest, .Err .BadRequest], initialState) ∧
    (runLoopSpec initialState [(.eof, true), (.eof, true)]).1 = [] := by
  exact ⟨rfl, rfl⟩

/-- C6 amended: the loop never exits at all — not for a bad request, not
for a failed response write (the write outcome is only logged and ignored),
and not for a read-side EOF either, which it answers with `Err(BadRequest)`
like any decode failure and then continues.  Formally: provided every frame
carries a request with a dispatch arm, the loop processes every input
event, producing exactly one response per event, whatever mix of frames,
bad frames, EOF conditions and write failures the input holds. -/
theorem loop_survives_bad_requests_and_failed_writes (st : BridgeState)
    (evs : List (ReadEvent × Bool))
    (h : ∀ p ∈ evs, eventHandled p.1 = true) :
    ∃ rs stf, runLoop st evs = some (rs, stf) ∧ rs.length = evs.length :=
  runLoop_total evs st h

theorem loop_survives_bad_requests_and_failed_writes_witness :
    (∀ p ∈ [(ReadEvent.frame (.NewToodle (ascii "a")), true),
            (ReadEvent.badFrame, false),
            (ReadEvent.eof, true),
            (ReadEvent.frame (.DestroyToodle 1), false)],
        eventHandled p.1 = true) ∧
    (∃ rs stf,
      runLoop initialState
          [(ReadEvent.frame (.NewToodle (ascii "a")), true),
           (ReadEvent.badFrame, false),
           (ReadEvent.eof, true),
           (ReadEvent.frame (.DestroyToodle 1), false)] = some (rs, stf) ∧
      rs.length = 4) :=
  ⟨by decide,
   loop_survives_bad_requests_and_failed_writes initialState _ (by decide)⟩

/-- The item as the `AddLabel` arm rebuilds it: `item.labels.push(label)`
(`main.rs` line 127). -/
def pushLabel (item : Item) (lbl : Label) : Item :=
  { item with labels := item.labels ++ [lbl] }

/-- The bridge state after the `AddLabel` arm has appended a missing label
and persisted the updated item (`main.rs` lines 126–129). -/
def addLabelState (st : BridgeState) (tid : Int) (toodle : Toodle)
    (item : Item) (lbl : Label) : BridgeState :=
  let toodle' : Toodle := { toodle with store := toodle.store.update_item (pushLabel item lbl) }
  { st with toodles := insertToodle st.toodles tid toodle' }

theorem dispatch_addLabel_absent (st : BridgeState) (tid : Int)
    (uuid : List Nat) (lbl : Label) (toodle : Toodle) (item : Item)
    (hl : lookupToodle st.toodles tid = some toodle)
    (hf : toodle.store.fetch_item uuid = some item)
    (hm : lbl ∉ item.labels) :
    dispatch st (.AddLabel tid uuid lbl) =
      some (.AddLabel, addLabelState st tid toodle item lbl) := by
  simp [dispatch, hl, hf, hm, addLabelState, pushLabel]

/-- C3: `AddLabel` is idempotent.  For a session in the table and an item
the store holds (whose label sequence does not already hold duplicate
copies of the label — the only situation the bridge itself can produce,
since this arm is the sole dispatch arm that mutates item labels and it
never appends a present label, `main.rs` lines 117–137): dispatching
`AddLabel` with the same `(toodle_id, item_uuid, label)` twice succeeds
both times (`Response::AddLabel`), the second dispatch leaves the state
exactly as the first left it, and the item ends with exactly one copy of
the label, duplicates being detected by value equality on the whole label
(`item.labels.contains(label)`). -/
theorem addLabel_idempotent (st : BridgeState) (tid : Int) (uuid : List Nat)
    (lbl : Label) (toodle : Toodle) (item : Item)
    (hl : lookupToodle st.toodles tid = some toodle)
    (hf : toodle.store.fetch_item uuid = some item)
    (hcount : item.labels.count lbl ≤ 1) :
    ∃ st1, dispatch st (.AddLabel tid uuid lbl) = some (.AddLabel, st1) ∧
      dispatch st1 (.AddLabel tid uuid lbl) = some (.AddLabel, st1) ∧
      ∃ toodle1 item1, lookupToodle st1.toodles tid = some toodle1 ∧
        toodle1.store.fetch_item uuid = some item1 ∧
        item1.labels.count lbl = 1 := by
  by_cases hm : lbl ∈ item.labels
  · refine ⟨st, by simp [dispatch, hl, hf, hm], by simp [dispatch, hl, hf, hm],
            toodle, item, hl, hf, ?_⟩
    have h1 : 0 < item.labels.count lbl := List.count_pos_iff.mpr hm
    omega
  · have hf' : (toodle.store.update_item (pushLabel item lbl)).fetch_item uuid =
        some (pushLabel item lbl) :=
      fetch_update_item toodle.store uuid item (pushLabel item lbl) hf rfl
    refine ⟨addLabelState st tid toodle item lbl,
            dispatch_addLabel_absent st tid uuid lbl toodle item hl hf hm, ?_, ?_⟩
    · have hl1 := lookupToodle_insert_self st.toodles tid
        ({ toodle with store := toodle.store.update_item (pushLabel item lbl) })
      have hm1 : lbl ∈ (pushLabel item lbl).labels := by simp [pushLabel]
      simp only [addLabelState]
      simp [dispatch, hl1, hf', hm1]
    · refine ⟨_, _, lookupToodle_insert_self st.toodles tid _, hf', ?_⟩
      simp [pushLabel, List.count_append, List.count_eq_zero_of_not_mem hm]

theorem addLabel_idempotent_witness :
    (lookupToodle
        [(1, ⟨⟨[], [⟨[105], [110], none, none, []⟩], []⟩,
              ⟨Store.new []⟩, ⟨Store.new []⟩⟩)] 1 =
      some ⟨⟨[], [⟨[105], [110], none, none, []⟩], []⟩,
            ⟨Store.new []⟩, ⟨Store.new []⟩⟩) ∧
    (∃ st1, dispatch ⟨[(1, ⟨⟨[], [⟨[105], [110], none, none, []⟩], []⟩,
                            ⟨Store.new []⟩, ⟨Store.new []⟩⟩)], 2⟩
          (.AddLabel 1 [105] ⟨[108], [99]⟩) = some (.AddLabel, st1) ∧
      dispatch st1 (.AddLabel 1 [105] ⟨[108], [99]⟩) = some (.AddLabel, st1) ∧
      ∃ toodle1 item1, lookupToodle st1.toodles 1 = some toodle1 ∧
        toodle1.store.fetch_item [105] = some item1 ∧
        item1.labels.count ⟨[108], [99]⟩ = 1) :=
  ⟨by decide,
   addLabel_idempotent _ 1 [105] ⟨[108], [99]⟩
     ⟨⟨[], [⟨[105], [110], none, none, []⟩], []⟩, ⟨Store.new []⟩, ⟨Store.new []⟩⟩
     ⟨[105], [110], none, none, []⟩ (by decide) (by decide) (by decide)⟩

/-! ## The Boundary Adapter (`lib.rs`): the C surface and the JNI surface -/

/-- The process heap of live `Toodle` allocations handed across the native
boundary, as a table from the address-sized token (`*mut Toodle`) to the
allocation.  `Box::into_raw(Box::new(..))` adds an entry;
dropping a `Box::from_raw(..)` removes it. -/
abbrev ToodleHeap : Type := List (Nat × Toodle)

/-- `toodle_destroy` from `lib.rs` lines 51–54 (the flat C surface):
`let _ = Box::from_raw(toodle);` retakes ownership of the allocation and
drops it, reclaiming the Session allocation for the token. -/
def toodle_destroy (heap : ToodleHeap) (token : Nat) : ToodleHeap :=
  heap.filter (fun p => ¬ p.1 = token)

/-- `Java_com_mozilla_toodle_RustToodle_toodleDestroy` from `lib.rs` lines
84–87 (the JNI surface): the body is `let _ = &*toodle;` — it only
*borrows* the allocation and frees nothing, so the heap is unchanged. -/
def Java_com_mozilla_toodle_RustToodle_toodleDestroy
    (heap : ToodleHeap) (_token : Nat) : ToodleHeap :=
  heap

/-- C9: evaluation of the two destroy surfaces at the same live token.  The
claim (both surfaces reclaim the Session allocation identically) fails: the
C surface's `toodle_destroy` removes the allocation, while the JNI
surface's `toodleDestroy` leaves the heap untouched (it never calls
`Box::from_raw`), so a Session destroyed through the JNI surface is in fact
leaked and the two surfaces differ observably. -/
theorem destroy_surfaces_differ :
    toodle_destroy [(1, Toodle.new (ascii "db"))] 1 = [] ∧
    Java_com_mozilla_toodle_RustToodle_toodleDestroy
        [(1, Toodle.new (ascii "db"))] 1 = [(1, Toodle.new (ascii "db"))] ∧
    toodle_destroy [(1, Toodle.new (ascii "db"))] 1 ≠
      Java_com_mozilla_toodle_RustToodle_toodleDestroy
        [(1, Toodle.new (ascii "db"))] 1 := by
  exact ⟨rfl, rfl, by decide⟩

/-- Modelled from the spec: `create_category` of the external `list` crate
(§6: a convenience operation illustrating a call into the list
sub-manager); the observable effect at the adapter is the delegated call —
which sub-manager is invoked and with which category name. -/
structure CategoryCall where
  manager : ListManager
  name : List Nat
deriving DecidableEq, Repr

/-- `Java_com_mozilla_toodle_RustToodle_newCategory` from `lib.rs` lines
95–101: the passed `JString` parameter is ignored (it is bound to `_`; the
line reading it is commented out) and `name` is hardwired to `"test"`
before calling `toodle.list.create_category(name)`. -/
def Java_com_mozilla_toodle_RustToodle_newCategory
    (toodle : Toodle) (_name : List Nat) : CategoryCall :=
  ⟨toodle.list, ascii "test"⟩

/-- C10: the mobile-runtime "create category" convenience operation ignores
the caller's string argument: for every pair of input strings the delegated
call is identical, and it always invokes the list sub-manager's
`create_category` with the fixed name `"test"`. -/
theorem newCategory_ignores_argument (toodle : Toodle) (s1 s2 : List Nat) :
    Java_com_mozilla_toodle_RustToodle_newCategory toodle s1 =
      Java_com_mozilla_toodle_RustToodle_newCategory toodle s2 ∧
    Java_com_mozilla_toodle_RustToodle_newCategory toodle s1 =
      ⟨toodle.list, ascii "test"⟩ :=
  ⟨rfl, rfl⟩

/-! ## The wire format (`serde_json` body + length-prefixed frame)

`Response::write_to` (`main.rs` lines 69–75) serializes the response with
`serde_json::to_vec` and writes a 4-byte native-endian (little-endian on
every supported target) length prefix followed by the body.  The JSON body
layout is the internally-tagged layout `#[serde(tag = "type")]` declares:
an object whose first member is the `"type"` tag followed by the variant's
fields in declaration order; `Item` uses the field order of the
`impl Serialize for Item` block of the source, `Label` the spec's
`\x7b name, color \x7d` (§3).  The decoding side of the frame lives in the peer
process, not in this repository; it is modelled from the spec (§6) as the
exact reader of this grammar. -/

/-- Byte-level string escaping for JSON: `"` and `\` get a backslash. -/
def escapeBytes : List Nat → List Nat
  | [] => []
  | b :: bs => (if b = 34 ∨ b = 92 then [92, b] else [b]) ++ escapeBytes bs

/-- A JSON string token: opening quote, escaped bytes, closing quote. -/
def printJString (s : List Nat) : List Nat := 34 :: (escapeBytes s ++ [34])

/-- Big-endian decimal digit values of a natural number. -/
def natDigits (n : Nat) : List Nat :=
  if _h : n < 10 then [n] else natDigits (n / 10) ++ [n % 10]
termination_by n
decreasing_by exact Nat.div_lt_self (by omega) (by omega)

/-- Decimal notation of a natural number, as ASCII bytes. -/
def printJNat (n : Nat) : List Nat := (natDigits n).map (· + 48)

/-- Decimal notation of an integer, as ASCII bytes. -/
def printJInt (i : Int) : List Nat :=
  if i < 0 then 45 :: printJNat i.natAbs else printJNat i.toNat

/-- `true` / `false` JSON literals. -/
def printJBool : Bool → List Nat
  | true => ascii "true"
  | false => ascii "false"

/-- Strip an expected literal prefix off the byte stream. -/
def stripPre : List Nat → List Nat → Option (List Nat)
  | [], bs => some bs
  | _ :: _, [] => none
  | p :: ps, b :: bs => if b = p then stripPre ps bs else none

/-- Read a string body (after the opening quote) up to the unescaped
closing quote, undoing the escapes. -/
def parseStringBody : List Nat → Option (List Nat × List Nat)
  | [] => none
  | 34 :: bs => some ([], bs)
  | 92 :: [] => none
  | 92 :: b1 :: bs1 => (parseStringBody bs1).map (fun p => (b1 :: p.1, p.2))
  | b :: bs => (parseStringBody bs).map (fun p => (b :: p.1, p.2))

/-- Read a JSON string token (opening quote included). -/
def parseJString (bs : List Nat) : Option (List Nat × List Nat) :=
  match bs with
  | 34 :: bs1 => parseStringBody bs1
  | _ => none

/-- Whether a byte is an ASCII decimal digit. -/
def isDigitByte (b : Nat) : Bool := 48 ≤ b ∧ b ≤ 57

/-- Split the longest digit prefix off the stream, as digit values. -/
def takeDigits : List Nat → List Nat × List Nat
  | [] => ([], [])
  | b :: bs =>
      if isDigitByte b then
        let p := takeDigits bs
        ((b - 48) :: p.1, p.2)
      else ([], b :: bs)

/-- Read a decimal natural number (at least one digit). -/
def parseJNat (bs : List Nat) : Option (Nat × List Nat) :=
  match takeDigits bs with
  | ([], _) => none
  | (ds, r) => some (ds.foldl (fun a d => a * 10 + d) 0, r)

/-- Read a decimal integer (optional leading minus). -/
def parseJInt (bs : List Nat) : Option (Int × List Nat) :=
  match bs with
  | 45 :: bs1 =>
      match parseJNat bs1 with
      | some (n, r) => some (-(n : Int), r)
      | none => none
  | _ =>
      match parseJNat bs with
      | some (n, r) => some ((n : Int), r)
      | none => none

/-- Read a JSON boolean literal. -/
def parseJBool (bs : List Nat) : Option (Bool × List Nat) :=
  match stripPre (ascii "true") bs with
  | some r => some (true, r)
  | none =>
      match stripPre (ascii "false") bs with
      | some r => some (false, r)
      | none => none

/-! ### Round-trip lemmas for the token parsers -/

theorem stripPre_append : ∀ (p rest : List Nat), stripPre p (p ++ rest) = some rest := by
  intro p rest
  induction p with
  | nil => rfl
  | cons a ps ih => simp [stripPre, ih]

theorem parseStringBody_escape : ∀ (s rest : List Nat),
    parseStringBody (escapeBytes s ++ 34 :: rest) = some (s, rest) := by
  intro s
  induction s with
  | nil => intro rest; rfl
  | cons b bs ih =>
      intro rest
      by_cases hb : b = 34 ∨ b = 92
      · simp only [escapeBytes, if_pos hb, List.cons_append, List.nil_append]
        rw [show parseStringBody (92 :: b :: (escapeBytes bs ++ 34 :: rest)) =
              (parseStringBody (escapeBytes bs ++ 34 :: rest)).map
                (fun p => (b :: p.1, p.2)) from rfl,
            ih]
        rfl
      · have h34 : ¬ b = 34 := fun h => hb (Or.inl h)
        have h92 : ¬ b = 92 := fun h => hb (Or.inr h)
        simp only [escapeBytes, if_neg hb, List.cons_append, List.nil_append]
        simp [parseStringBody, h34, h92, ih]

theorem parseJString_print (s rest : List Nat) :
    parseJString (printJString s ++ rest) = some (s, rest) := by
  simp [printJString, parseJString, List.append_assoc, parseStringBody_escape]

theorem natDigits_ne_nil (n : Nat) : natDigits n ≠ [] := by
  rw [natDigits]
  split
  · simp
  · simp

theorem natDigits_lt (n : Nat) : ∀ d ∈ natDigits n, d < 10 := by
  induction n using Nat.strong_induction_on with
  | _ n ih =>
      rw [natDigits]
      split
      · next h => intro d hd; simp at hd; omega
      · next h =>
          intro d hd
          rw [List.mem_append] at hd
          rcases hd with h' | h'
          · exact ih (n / 10) (Nat.div_lt_self (by omega) (by omega)) d h'
          · simp at h'; omega

theorem foldl_natDigits (n : Nat) :
    ∀ a : Nat, (natDigits n).foldl (fun acc d => acc * 10 + d) a =
      a * 10 ^ (natDigits n).length + n := by
  induction n using Nat.strong_induction_on with
  | _ n ih =>
      intro a
      rw [natDigits]
      split
      · next h => simp
      · next h =>
          rw [List.foldl_append, List.length_append,
              ih (n / 10) (Nat.div_lt_self (by omega) (by omega))]
          simp only [List.foldl_cons, List.foldl_nil, List.length_cons,
                     List.length_nil, Nat.zero_add, pow_succ]
          have hmod : n / 10 * 10 + n % 10 = n := by omega
          calc (a * 10 ^ (natDigits (n / 10)).length + n / 10) * 10 + n % 10
              = a * (10 ^ (natDigits (n / 10)).length * 10) +
                  (n / 10 * 10 + n % 10) := by ring
            _ = a * (10 ^ (natDigits (n / 10)).length * 10) + n := by rw [hmod]

theorem takeDigits_digits (ds : List Nat) (hds : ∀ d ∈ ds, d < 10)
    (rest : List Nat)
    (hrest : ∀ b, rest.head? = some b → isDigitByte b = false) :
    takeDigits (ds.map (· + 48) ++ rest) = (ds, rest) := by
  induction ds with
  | nil =>
      cases rest with
      | nil => rfl
      | cons b r =>
          have hb := hrest b rfl
          simp [takeDigits, hb]
  | cons d ds' ih =>
      have hd10 : d < 10 := hds d (List.mem_cons_self _ _)
      have hd : isDigitByte (d + 48) = true := by
        simp only [isDigitByte, decide_eq_true_eq]
        omega
      have ih' := ih (fun x hx => hds x (List.mem_cons_of_mem _ hx))
      simp [takeDigits, hd, ih', Nat.add_sub_cancel]

theorem parseJNat_print (n : Nat) (rest : List Nat)
    (hrest : ∀ b, rest.head? = some b → isDigitByte b = false) :
    parseJNat (printJNat n ++ rest) = some (n, rest) := by
  unfold parseJNat printJNat
  rw [takeDigits_digits (natDigits n) (natDigits_lt n) rest hrest]
  obtain ⟨d, ds, hD⟩ : ∃ d ds, natDigits n = d :: ds := by
    rcases h : natDigits n with _ | ⟨d, ds⟩
    · exact absurd h (natDigits_ne_nil n)
    · exact ⟨d, ds, rfl⟩
  have hfold := foldl_natDigits n 0
  simp only [Nat.zero_mul, Nat.zero_add] at hfold
  rw [hD] at hfold ⊢
  simp only [hfold]

theorem parseJInt_print (i : Int) (rest : List Nat)
    (hrest : ∀ b, rest.head? = some b → isDigitByte b = false) :
    parseJInt (printJInt i ++ rest) = some (i, rest) := by
  unfold printJInt
  split
  · next hneg =>
      simp only [List.cons_append]
      rw [show ∀ bs, parseJInt (45 :: bs) =
            (match parseJNat bs with
             | some (n, r) => some (-(n : Int), r)
             | none => none) from fun bs => rfl]
      rw [parseJNat_print i.natAbs rest hrest]
      have hval : -(↑i.natAbs : Int) = i := by omega
      show some (-(↑i.natAbs : Int), rest) = some (i, rest)
      rw [hval]
  · next hpos =>
      obtain ⟨d, ds, hD⟩ : ∃ d ds, natDigits i.toNat = d :: ds := by
        rcases h : natDigits i.toNat with _ | ⟨d, ds⟩
        · exact absurd h (natDigits_ne_nil _)
        · exact ⟨d, ds, rfl⟩
      have hd10 : d < 10 := natDigits_lt _ d (by rw [hD]; exact List.mem_cons_self _ _)
      have hshape : printJNat i.toNat ++ rest =
          (d + 48) :: (ds.map (· + 48) ++ rest) := by
        simp [printJNat, hD]
      rw [hshape, parseJInt.eq_def]
      split
      · next bs1 heq =>
          have : d + 48 = 45 := by injection heq
          omega
      · next hne =>
          rw [← hshape, parseJNat_print i.toNat rest hrest]
          have hval : (↑i.toNat : Int) = i := by omega
          show some ((↑i.toNat : Int), rest) = some (i, rest)
          rw [hval]

theorem parseJBool_print (b : Bool) (rest : List Nat) :
    parseJBool (printJBool b ++ rest) = some (b, rest) := by
  cases b with
  | true => simp [printJBool, parseJBool, stripPre_append]
  | false =>
      have h1 : stripPre (ascii "true") (ascii "false" ++ rest) = none := rfl
      simp [printJBool, parseJBool, h1, stripPre_append]

/-! ### The frame body grammar: named byte constants shared by the encoder
and the (spec-modelled) decoder -/

/-- `\x7b"type":"` — the opening of every internally-tagged body. -/
def bTypeKey : List Nat := ascii "\x7b\"type\":\""

/-- A double quote. -/
def quoteB : List Nat := ascii "\""

/-- A closing brace `\x7d`. -/
def closeBrace : List Nat := ascii "\x7d"

/-- The `null` literal. -/
def nullB : List Nat := ascii "null"

def tagNewToodle : List Nat := ascii "NewToodle"

def tagDestroyToodle : List Nat := ascii "DestroyToodle"

def tagCreateLabel : List Nat := ascii "CreateLabel"

def tagCreateItem : List Nat := ascii "CreateItem"

def tagAddLabel : List Nat := ascii "AddLabel"

def tagErr : List Nat := ascii "Err"

def kToodleId : List Nat := ascii ",\"toodle_id\":"

def kDestroyed : List Nat := ascii ",\"destroyed\":"

def kLabel : List Nat := ascii ",\"label\":"

def kItem : List Nat := ascii ",\"item\":"

def kErrField : List Nat := ascii ",\"error\":\""

def kName : List Nat := ascii "\x7b\"name\":"

def kColor : List Nat := ascii ",\"color\":"

def kUuid : List Nat := ascii "\x7b\"uuid\":"

def kItemName : List Nat := ascii ",\"name\":"

def kDue : List Nat := ascii ",\"due_date\":"

def kCompletion : List Nat := ascii ",\"completion_date\":"

def kLabels : List Nat := ascii ",\"labels\":"

/-- serde's `Option<i64>`: `null` or the number. -/
def printJOptInt : Option Int → List Nat
  | none => nullB
  | some i => printJInt i

/-- The JSON bytes of a `Label`: `\x7b"name":…,"color":…\x7d` (spec §3; the
`Label` serializer itself lives in the external `toodle` crate). -/
def Label.toJsonBytes (l : Label) : List Nat :=
  kName ++ (printJString l.name ++ (kColor ++ (printJString l.color ++ closeBrace)))

/-- A JSON array of labels: comma-separated after the first element. -/
def printLabelsTail : List Label → List Nat
  | [] => ascii "]"
  | l :: ls => ascii "," ++ (Label.toJsonBytes l ++ printLabelsTail ls)

/-- A JSON array of labels, opening bracket included. -/
def printLabels : List Label → List Nat
  | [] => ascii "[]"
  | l :: ls => ascii "[" ++ (Label.toJsonBytes l ++ printLabelsTail ls)

/-- The JSON bytes of an `Item`, fields in the order of the
`impl Serialize for Item` block (`main.rs` lines 161–174): uuid, name,
due_date, completion_date, labels. -/
def Item.toJsonBytes (it : Item) : List Nat :=
  kUuid ++ (printJString it.uuid ++ (kItemName ++ (printJString it.name ++
    (kDue ++ (printJOptInt it.due_date ++ (kCompletion ++
      (printJOptInt it.completion_date ++ (kLabels ++
        (printLabels it.labels ++ closeBrace)))))))))

/-- The error-kind strings of the taxonomy (spec §7). -/
def Error.toJsonBytes : Error → List Nat
  | .BadRequest => ascii "BadRequest"
  | .BadToodle => ascii "BadToodle"
  | .BadLabel => ascii "BadLabel"
  | .BadItem => ascii "BadItem"

/-- The serialized body of a `Response`: the internally-tagged
(`#[serde(tag = "type")]`) object layout of the source's `enum Response`,
variant fields in declaration order; the `Err` variant carries its error
kind (spec §3: "an Err variant carrying an error kind"). -/
def Response.toJsonBytes : Response → List Nat
  | .NewToodle id =>
      bTypeKey ++ (tagNewToodle ++ (quoteB ++ (kToodleId ++ (printJInt id ++ closeBrace))))
  | .DestroyToodle d =>
      bTypeKey ++ (tagDestroyToodle ++ (quoteB ++ (kDestroyed ++ (printJBool d ++ closeBrace))))
  | .CreateLabel l =>
      bTypeKey ++ (tagCreateLabel ++ (quoteB ++ (kLabel ++ (l.toJsonBytes ++ closeBrace))))
  | .CreateItem it =>
      bTypeKey ++ (tagCreateItem ++ (quoteB ++ (kItem ++ (it.toJsonBytes ++ closeBrace))))
  | .AddLabel => bTypeKey ++ (tagAddLabel ++ (quoteB ++ closeBrace))
  | .Err e =>
      bTypeKey ++ (tagErr ++ (quoteB ++ (kErrField ++ (e.toJsonBytes ++ (quoteB ++ closeBrace)))))

/-! ### The spec-modelled decoders (the peer-side reader of §6) -/

/-- Modelled from the spec: `null` or a decimal integer. -/
def parseJOptInt (bs : List Nat) : Option (Option Int × List Nat) :=
  match stripPre nullB bs with
  | some r => some (none, r)
  | none =>
      match parseJInt bs with
      | some (i, r) => some (some i, r)
      | none => none

/-- Modelled from the spec: a `Label` object. -/
def parseLabel (bs : List Nat) : Option (Label × List Nat) :=
  match stripPre kName bs with
  | none => none
  | some r1 =>
      match parseJString r1 with
      | none => none
      | some (nm, r2) =>
          match stripPre kColor r2 with
          | none => none
          | some r3 =>
              match parseJString r3 with
              | none => none
              | some (c, r4) =>
                  match stripPre closeBrace r4 with
                  | none => none
                  | some r5 => some (⟨nm, c⟩, r5)

/-- Modelled from the spec: the elements of a label array after the first,
each introduced by a comma, closed by `]`.  The fuel bounds the element
count; the reader hands it the input length, which always suffices. -/
def parseLabelsTail : Nat → List Nat → Option (List Label × List Nat)
  | 0, _ => none
  | fuel + 1, bs =>
      match bs with
      | [] => none
      | b :: r =>
          if b = 93 then some ([], r)
          else if b = 44 then
            match parseLabel r with
            | none => none
            | some (l, r1) =>
                (parseLabelsTail fuel r1).map (fun p => (l :: p.1, p.2))
          else none

/-- Modelled from the spec: a label array. -/
def parseLabels (fuel : Nat) (bs : List Nat) : Option (List Label × List Nat) :=
  match bs with
  | [] => none
  | b :: r =>
      if b = 91 then
        match r with
        | [] => none
        | c :: r1 =>
            if c = 93 then some ([], r1)
            else
              match parseLabel (c :: r1) with
              | none => none
              | some (l, r2) =>
                  (parseLabelsTail fuel r2).map (fun p => (l :: p.1, p.2))
      else none

/-- Modelled from the spec: an `Item` object, fields in the serializer's
order. -/
def parseItem (bs : List Nat) : Option (Item × List Nat) :=
  match stripPre kUuid bs with
  | none => none
  | some r1 =>
      match parseJString r1 with
      | none => none
      | some (uu, r2) =>
          match stripPre kItemName r2 with
          | none => none
          | some r3 =>
              match parseJString r3 with
              | none => none
              | some (nm, r4) =>
                  match stripPre kDue r4 with
                  | none => none
                  | some r5 =>
                      match parseJOptInt r5 with
                      | none => none
                      | some (dd, r6) =>
                          match stripPre kCompletion r6 with
                          | none => none
                          | some r7 =>
                              match parseJOptInt r7 with
                              | none => none
                              | some (cd, r8) =>
                                  match stripPre kLabels r8 with
                                  | none => none
                                  | some r9 =>
                                      match parseLabels (r9.length + 1) r9 with
                                      | none => none
                                      | some (ls, r10) =>
                                          match stripPre closeBrace r10 with
                                          | none => none
                                          | some r11 => some (⟨uu, nm, dd, cd, ls⟩, r11)

/-- Modelled from the spec: an error kind string. -/
def parseError (k : List Nat) : Option Error :=
  if k = Error.toJsonBytes .BadRequest then some .BadRequest
  else if k = Error.toJsonBytes .BadToodle then some .BadToodle
  else if k = Error.toJsonBytes .BadLabel then some .BadLabel
  else if k = Error.toJsonBytes .BadItem then some .BadItem
  else none

/-- Modelled from the spec (§6): the peer-side reader of a `Response` body —
a JSON object whose `type` tag selects the variant, variant fields in
declaration order. -/
def parseResponse (bs : List Nat) : Option (Response × List Nat) :=
  match stripPre bTypeKey bs with
  | none => none
  | some bs1 =>
      match parseStringBody bs1 with
      | none => none
      | some (tag, bs2) =>
          if tag = tagNewToodle then
            match stripPre kToodleId bs2 with
            | none => none
            | some r1 =>
                match parseJInt r1 with
                | none => none
                | some (n, r2) =>
                    match stripPre closeBrace r2 with
                    | none => none
                    | some r3 => some (.NewToodle n, r3)
          else if tag = tagDestroyToodle then
            match stripPre kDestroyed bs2 with
            | none => none
            | some r1 =>
                match parseJBool r1 with
                | none => none
                | some (d, r2) =>
                    match stripPre closeBrace r2 with
                    | none => none
                    | some r3 => some (.DestroyToodle d, r3)
          else if tag = tagCreateLabel then
            match stripPre kLabel bs2 with
            | none => none
            | some r1 =>
                match parseLabel r1 with
                | none => none
                | some (l, r2) =>
                    match stripPre closeBrace r2 with
                    | none => none
                    | some r3 => some (.CreateLabel l, r3)
          else if tag = tagCreateItem then
            match stripPre kItem bs2 with
            | none => none
            | some r1 =>
                match parseItem r1 with
                | none => none
                | some (it, r2) =>
                    match stripPre closeBrace r2 with
                    | none => none
                    | some r3 => some (.CreateItem it, r3)
          else if tag = tagAddLabel then
            match stripPre closeBrace bs2 with
            | none => none
            | some r1 => some (.AddLabel, r1)
          else if tag = tagErr then
            match stripPre kErrField bs2 with
            | none => none
            | some r1 =>
                match parseStringBody r1 with
                | none => none
                | some (k, r2) =>
                    match parseError k with
                    | none => none
                    | some e =>
                        match stripPre closeBrace r2 with
                        | none => none
                        | some r3 => some (.Err e, r3)
          else none

/-! ### Round-trip of the body grammar -/

theorem quoteB_cons (X : List Nat) : quoteB ++ X = 34 :: X := rfl

theorem parseStringBody_plain (s : List Nat) (h : escapeBytes s = s)
    (rest : List Nat) : parseStringBody (s ++ 34 :: rest) = some (s, rest) := by
  conv_lhs => rw [← h]
  exact parseStringBody_escape s rest

theorem parseTag_newToodle (X : List Nat) :
    parseStringBody (tagNewToodle ++ (quoteB ++ X)) = some (tagNewToodle, X) := by
  rw [quoteB_cons]
  exact parseStringBody_plain _ (by decide) _

theorem parseTag_destroyToodle (X : List Nat) :
    parseStringBody (tagDestroyToodle ++ (quoteB ++ X)) = some (tagDestroyToodle, X) := by
  rw [quoteB_cons]
  exact parseStringBody_plain _ (by decide) _

theorem parseTag_createLabel (X : List Nat) :
    parseStringBody (tagCreateLabel ++ (quoteB ++ X)) = some (tagCreateLabel, X) := by
  rw [quoteB_cons]
  exact parseStringBody_plain _ (by decide) _

theorem parseTag_createItem (X : List Nat) :
    parseStringBody (tagCreateItem ++ (quoteB ++ X)) = some (tagCreateItem, X) := by
  rw [quoteB_cons]
  exact parseStringBody_plain _ (by decide) _

theorem parseTag_addLabel (X : List Nat) :
    parseStringBody (tagAddLabel ++ (quoteB ++ X)) = some (tagAddLabel, X) := by
  rw [quoteB_cons]
  exact parseStringBody_plain _ (by decide) _

theorem parseTag_err (X : List Nat) :
    parseStringBody (tagErr ++ (quoteB ++ X)) = some (tagErr, X) := by
  rw [quoteB_cons]
  exact parseStringBody_plain _ (by decide) _

theorem escape_errKind (e : Error) :
    escapeBytes (Error.toJsonBytes e) = Error.toJsonBytes e := by
  cases e <;> decide

theorem parseErrKind (e : Error) (X : List Nat) :
    parseStringBody (Error.toJsonBytes e ++ (quoteB ++ X)) =
      some (Error.toJsonBytes e, X) := by
  rw [quoteB_cons]
  exact parseStringBody_plain _ (escape_errKind e) _

theorem parseError_kind (e : Error) : parseError (Error.toJsonBytes e) = some e := by
  cases e <;> decide

theorem printJInt_head (i : Int) :
    ∃ b tl, printJInt i = b :: tl ∧ (b = 45 ∨ (48 ≤ b ∧ b ≤ 57)) := by
  unfold printJInt
  split
  · exact ⟨45, printJNat i.natAbs, rfl, Or.inl rfl⟩
  · obtain ⟨d, ds, hD⟩ : ∃ d ds, natDigits i.toNat = d :: ds := by
      rcases h : natDigits i.toNat with _ | ⟨d, ds⟩
      · exact absurd h (natDigits_ne_nil _)
      · exact ⟨d, ds, rfl⟩
    have hd10 : d < 10 := natDigits_lt _ d (by rw [hD]; exact List.mem_cons_self _ _)
    refine ⟨d + 48, ds.map (· + 48), ?_, Or.inr (by omega)⟩
    simp [printJNat, hD]

theorem parseJOptInt_print (o : Option Int) (rest : List Nat)
    (hrest : ∀ b, rest.head? = some b → isDigitByte b = false) :
    parseJOptInt (printJOptInt o ++ rest) = some (o, rest) := by
  cases o with
  | none => simp [printJOptInt, parseJOptInt, stripPre_append]
  | some i =>
      obtain ⟨b, tl, hbt, hb⟩ := printJInt_head i
      have hnull : stripPre nullB (printJInt i ++ rest) = none := by
        rw [hbt, List.cons_append]
        rw [show ∀ Y : List Nat, stripPre nullB (b :: Y) =
              (if b = 110 then stripPre (ascii "ull") Y else none) from fun Y => rfl]
        rw [if_neg (by omega)]
      simp only [printJOptInt, parseJOptInt, hnull,
                 parseJInt_print i rest hrest]

theorem headNotDigit_cons (c : Nat) (h : isDigitByte c = false) (X : List Nat) :
    ∀ b, ((c :: X) : List Nat).head? = some b → isDigitByte b = false := by
  intro b hb
  have hcb : c = b := by simpa using hb
  rwa [← hcb]

theorem parseJInt_close (i : Int) (X : List Nat) :
    parseJInt (printJInt i ++ (closeBrace ++ X)) = some (i, closeBrace ++ X) :=
  parseJInt_print i (closeBrace ++ X)
    (by rw [show closeBrace ++ X = 125 :: X from rfl]
        exact headNotDigit_cons 125 (by decide) X)

theorem parseJOptInt_kCompletion (o : Option Int) (X : List Nat) :
    parseJOptInt (printJOptInt o ++ (kCompletion ++ X)) =
      some (o, kCompletion ++ X) :=
  parseJOptInt_print o (kCompletion ++ X)
    (by rw [show kCompletion ++ X = 44 :: (ascii "\"completion_date\":" ++ X) from rfl]
        exact headNotDigit_cons 44 (by decide) _)

theorem parseJOptInt_kLabels (o : Option Int) (X : List Nat) :
    parseJOptInt (printJOptInt o ++ (kLabels ++ X)) = some (o, kLabels ++ X) :=
  parseJOptInt_print o (kLabels ++ X)
    (by rw [show kLabels ++ X = 44 :: (ascii "\"labels\":" ++ X) from rfl]
        exact headNotDigit_cons 44 (by decide) _)

theorem parseLabel_print (l : Label) (rest : List Nat) :
    parseLabel (Label.toJsonBytes l ++ rest) = some (l, rest) := by
  simp only [parseLabel, Label.toJsonBytes, List.append_assoc, stripPre_append,
             parseJString_print]

theorem printLabelsTail_length (ls : List Label) :
    ls.length ≤ (printLabelsTail ls).length := by
  induction ls with
  | nil => simp [printLabelsTail]
  | cons l ls' ih =>
      have h1 : (ascii "," : List Nat).length = 1 := rfl
      simp only [printLabelsTail, List.length_append, List.length_cons, h1]
      omega

theorem printLabels_length (ls : List Label) :
    ls.length ≤ (printLabels ls).length := by
  cases ls with
  | nil => simp [printLabels]
  | cons l ls' =>
      have ht := printLabelsTail_length ls'
      have h1 : (ascii "[" : List Nat).length = 1 := rfl
      simp only [printLabels, List.length_append, List.length_cons, h1]
      omega

theorem labelBytes_shape (l : Label) (W : List Nat) :
    Label.toJsonBytes l ++ W =
      123 :: (ascii "\"name\":" ++ (printJString l.name ++ (kColor ++
        (printJString l.color ++ (closeBrace ++ W))))) := by
  simp only [Label.toJsonBytes, List.append_assoc]
  rw [show (kName : List Nat) = 123 :: ascii "\"name\":" from rfl, List.cons_append]

theorem parseLabelsTail_print :
    ∀ (ls : List Label) (fuel : Nat), ls.length < fuel →
    ∀ Z, parseLabelsTail fuel (printLabelsTail ls ++ Z) = some (ls, Z) := by
  intro ls
  induction ls with
  | nil =>
      intro fuel hf Z
      cases fuel with
      | zero => omega
      | succ f =>
          rw [show printLabelsTail [] ++ Z = 93 :: Z from rfl]
          simp [parseLabelsTail]
  | cons l ls' ih =>
      intro fuel hf Z
      cases fuel with
      | zero => simp at hf
      | succ f =>
          have hlen : ls'.length < f := by
            simp only [List.length_cons] at hf
            omega
          have hshape : printLabelsTail (l :: ls') ++ Z =
              44 :: (Label.toJsonBytes l ++ (printLabelsTail ls' ++ Z)) := by
            simp only [printLabelsTail, List.append_assoc]
            rw [show (ascii "," : List Nat) = [44] from rfl, List.singleton_append]
          rw [hshape]
          simp only [parseLabelsTail]
          rw [if_neg (by omega), if_pos trivial]
          simp [parseLabel_print, ih f hlen Z]

theorem parseLabels_print (ls : List Label) (fuel : Nat) (hf : ls.length < fuel)
    (Z : List Nat) : parseLabels fuel (printLabels ls ++ Z) = some (ls, Z) := by
  cases ls with
  | nil =>
      rw [show printLabels [] ++ Z = 91 :: 93 :: Z from rfl]
      simp [parseLabels]
  | cons l ls' =>
      have hlen : ls'.length < fuel := by
        simp only [List.length_cons] at hf
        omega
      have hlab := labelBytes_shape l (printLabelsTail ls' ++ Z)
      have hshape : printLabels (l :: ls') ++ Z =
          91 :: (Label.toJsonBytes l ++ (printLabelsTail ls' ++ Z)) := by
        simp only [printLabels, List.append_assoc]
        rw [show (ascii "[" : List Nat) = [91] from rfl, List.singleton_append]
      rw [hshape, hlab]
      simp only [parseLabels]
      rw [if_pos trivial, if_neg (by omega)]
      rw [← hlab]
      simp [parseLabel_print, parseLabelsTail_print ls' fuel hlen Z]

theorem parseItem_print (it : Item) (rest : List Nat) :
    parseItem (Item.toJsonBytes it ++ rest) = some (it, rest) := by
  simp only [parseItem, Item.toJsonBytes, List.append_assoc, stripPre_append,
             parseJString_print, parseJOptInt_kCompletion, parseJOptInt_kLabels]
  rw [parseLabels_print it.labels _ (by
        have := printLabels_length it.labels
        simp only [List.length_append]
        omega) (closeBrace ++ rest)]
  simp [stripPre_append]

theorem parseResponse_print (r : Response) (rest : List Nat) :
    parseResponse (Response.toJsonBytes r ++ rest) = some (r, rest) := by
  cases r with
  | NewToodle id =>
      simp only [Response.toJsonBytes, parseResponse, List.append_assoc,
                 stripPre_append, parseTag_newToodle]
      rw [if_pos trivial]
      simp [stripPre_append, parseJInt_close]
  | DestroyToodle d =>
      simp only [Response.toJsonBytes, parseResponse, List.append_assoc,
                 stripPre_append, parseTag_destroyToodle]
      rw [if_neg (by decide), if_pos trivial]
      simp [stripPre_append, parseJBool_print]
  | CreateLabel l =>
      simp only [Response.toJsonBytes, parseResponse, List.append_assoc,
                 stripPre_append, parseTag_createLabel]
      rw [if_neg (by decide), if_neg (by decide), if_pos trivial]
      simp [stripPre_append, parseLabel_print]
  | CreateItem it =>
      simp only [Response.toJsonBytes, parseResponse, List.append_assoc,
                 stripPre_append, parseTag_createItem]
      rw [if_neg (by decide), if_neg (by decide), if_neg (by decide), if_pos trivial]
      simp [stripPre_append, parseItem_print]
  | AddLabel =>
      simp only [Response.toJsonBytes, parseResponse, List.append_assoc,
                 stripPre_append, parseTag_addLabel]
      rw [if_neg (by decide), if_neg (by decide), if_neg (by decide),
          if_neg (by decide), if_pos trivial]
  | Err e =>
      simp only [Response.toJsonBytes, parseResponse, List.append_assoc,
                 stripPre_append, parseTag_err]
      rw [if_neg (by decide), if_neg (by decide), if_neg (by decide),
          if_neg (by decide), if_neg (by decide), if_pos trivial]
      simp [stripPre_append, parseErrKind, parseError_kind]

/-! ### The length-prefixed frame -/

/-- The 4 bytes of a `u32` in little-endian order — `NativeEndian` on every
platform this code targets (x86/ARM).  Taking each byte mod 256 of the
successive quotients is exactly what `message.len() as u32` followed by
`write_u32` produces: lengths are truncated mod 2^32. -/
def u32le (n : Nat) : List Nat :=
  [n % 256, n / 256 % 256, n / 65536 % 256, n / 16777216 % 256]

/-- `Response::write_to` (`main.rs` lines 69–75): serialize the response
(`serde_json::to_vec`), write the body length as a native-endian `u32`
(`message.len() as u32`), then the body bytes. -/
def Response.write_to (r : Response) : List Nat :=
  let message := r.toJsonBytes
  u32le message.length ++ message

/-- Modelled from the spec (§6): the peer-side reader of one frame — read a
4-byte native-endian length prefix, take exactly that many bytes as the
UTF-8 JSON body, and decode the body as a `Response`; the body must be
consumed entirely. -/
def readResponseFrame (bs : List Nat) : Option Response :=
  match bs with
  | b0 :: b1 :: b2 :: b3 :: rest =>
      match parseResponse (rest.take (b0 + 256 * b1 + 65536 * b2 + 16777216 * b3)) with
      | some (r, []) => some r
      | _ => none
  | _ => none

theorem u32le_value (n : Nat) (h : n < 4294967296) :
    n % 256 + 256 * (n / 256 % 256) + 65536 * (n / 65536 % 256) +
      16777216 * (n / 16777216 % 256) = n := by
  omega

/-- C8: framing round-trip.  For every `Response` variant whose serialized
body fits the 32-bit length prefix (`message.len() as u32` truncates, so
the prefix is only faithful below 2^32 bytes), writing the response as a
frame — 4-byte native-endian (little-endian) length prefix followed by
exactly that many bytes of JSON body — and decoding the resulting byte
sequence through the same framing rules yields the original `Response`. -/
theorem response_frame_roundtrip (r : Response)
    (h : r.toJsonBytes.length < 4294967296) :
    readResponseFrame r.write_to = some r := by
  show readResponseFrame (u32le r.toJsonBytes.length ++ r.toJsonBytes) = some r
  rw [show u32le r.toJsonBytes.length ++ r.toJsonBytes =
        r.toJsonBytes.length % 256 :: (r.toJsonBytes.length / 256 % 256 ::
          (r.toJsonBytes.length / 65536 % 256 ::
            (r.toJsonBytes.length / 16777216 % 256 :: r.toJsonBytes))) from rfl]
  simp only [readResponseFrame]
  rw [u32le_value r.toJsonBytes.length h, List.take_length]
  have hp := parseResponse_print r []
  rw [List.append_nil] at hp
  rw [hp]

theorem response_frame_roundtrip_witness :
    (Response.toJsonBytes .AddLabel).length < 4294967296 ∧
    readResponseFrame (Response.write_to .AddLabel) = some .AddLabel :=
  ⟨by decide, response_frame_roundtrip .AddLabel (by decide)⟩
